import Mathlib

/-!
Verification development for the fingerprint template lifecycle implemented in
main.py of the ZKFingerprint repository: the base64 template codec, user-id
allocation over the SQLite store, bulk loading of the device's volatile index,
and the registration and identification workflows.

The Python source is shallowly embedded: the SQLite fingerprints table becomes
a list of (user_id, encoded template) rows, the device's volatile template
index becomes a list of (user_id, raw template) entries, and the vendor SDK
calls (AcquireFingerprint, DBIdentify, DBMerge, DBAdd, DBClear) are supplied
by an environment record, matching the external Capture Source contract.
Exceptions raised by the Python code are modelled as explicit error values.
-/

set_option autoImplicit false

namespace ZKFingerprint

/-- Raw template bytes; each entry is one byte value (0..255 where it matters,
stated as explicit bounds). -/
abbrev Bytes := List Nat

/-- Durable store rows: user_id paired with the base64-encoded template text.
This models the fingerprints table of main.py in insertion order. -/
abbrev Store := List (Int × List Char)

/-- Volatile device index entries: user_id paired with a raw template, the
state mutated by DBAdd and emptied by DBClear. -/
abbrev VIndex := List (Int × Bytes)

/-- Errors raised by the embedded Python fragments. -/
inductive PyErr
  | typeError
  | binasciiError
  deriving DecidableEq

/-! ## Template codec: base64, as used by base64.b64encode / b64decode -/

/-- Standard base64 alphabet in index order. -/
def b64Alphabet : List Char :=
  ['A', 'B', 'C', 'D', 'E', 'F', 'G', 'H', 'I', 'J', 'K', 'L', 'M',
   'N', 'O', 'P', 'Q', 'R', 'S', 'T', 'U', 'V', 'W', 'X', 'Y', 'Z',
   'a', 'b', 'c', 'd', 'e', 'f', 'g', 'h', 'i', 'j', 'k', 'l', 'm',
   'n', 'o', 'p', 'q', 'r', 's', 't', 'u', 'v', 'w', 'x', 'y', 'z',
   '0', '1', '2', '3', '4', '5', '6', '7', '8', '9', '+', '/']

/-- Character for a six-bit value. -/
def sextetToChar (n : Nat) : Char := b64Alphabet.getD n 'A'

/-- Six-bit value of an alphabet character, none for a character outside the
alphabet. -/
def charToSextet (c : Char) : Option Nat :=
  b64Alphabet.findIdx? (fun x => x == c)

/-- Encoding of raw bytes into base64 characters: three bytes map to four
characters; a final group of one or two bytes is padded with '='. -/
def b64encode : Bytes → List Char
  | a :: b :: c :: rest =>
      sextetToChar (a / 4) :: sextetToChar (a % 4 * 16 + b / 16) ::
      sextetToChar (b % 16 * 4 + c / 64) :: sextetToChar (c % 64) :: b64encode rest
  | [a, b] =>
      [sextetToChar (a / 4), sextetToChar (a % 4 * 16 + b / 16),
       sextetToChar (b % 16 * 4), '=']
  | [a] =>
      [sextetToChar (a / 4), sextetToChar (a % 4 * 16), '=', '=']
  | [] => []

/-- Decoding of four-character groups back into bytes; '=' padding is honoured
only at the end, and any other shape fails (the binascii padding error). -/
def b64decodeBody : List Char → Option Bytes
  | [] => some []
  | c1 :: c2 :: c3 :: c4 :: rest =>
      if c3 = '=' ∧ c4 = '=' ∧ rest = [] then
        match charToSextet c1, charToSextet c2 with
        | some s1, some s2 => some [s1 * 4 + s2 / 16]
        | _, _ => none
      else if c4 = '=' ∧ rest = [] then
        match charToSextet c1, charToSextet c2, charToSextet c3 with
        | some s1, some s2, some s3 =>
            some [s1 * 4 + s2 / 16, s2 % 16 * 16 + s3 / 4]
        | _, _, _ => none
      else
        match charToSextet c1, charToSextet c2, charToSextet c3,
              charToSextet c4, b64decodeBody rest with
        | some s1, some s2, some s3, some s4, some bs =>
            some ((s1 * 4 + s2 / 16) :: (s2 % 16 * 16 + s3 / 4) ::
                  (s3 % 4 * 64 + s4) :: bs)
        | _, _, _, _, _ => none
  | _ => none

/-- Model of base64.b64decode with its default validation: characters outside
the alphabet and outside padding are discarded first, then the remaining text
must fall into four-character groups. -/
def b64decode (s : List Char) : Option Bytes :=
  b64decodeBody (s.filter (fun c => b64Alphabet.contains c || c == '='))

/-! ## Persistent store adapter and identity allocator -/

/-- SELECT MAX(user_id) FROM fingerprints: none on an empty table, otherwise
the greatest user_id. -/
def maxUserId : Store → Option Int
  | [] => none
  | (u, _) :: rest =>
      match maxUserId rest with
      | none => some u
      | some m => some (max u m)

/-- get_next_user_id of main.py. The Python expression result + 1 if result
else 1 maps a missing maximum (empty table) and a maximum of 0 (falsy) to 1,
and any other maximum m to m + 1. -/
def get_next_user_id (s : Store) : Int :=
  match maxUserId s with
  | none => 1
  | some m => if m = 0 then 1 else m + 1

/-- Identity Allocator as the specification words it: max existing userId
plus one, or 1 when the store is empty. Used only to compare against the
source-derived get_next_user_id. -/
def nextUserIdSpec (s : Store) : Int :=
  match maxUserId s with
  | none => 1
  | some m => m + 1

/-- save_fingerprint_to_db of main.py: an INSERT under the store lock that
fails (and is swallowed by the except branch, returning normally) on a
simulated I/O fault or on a primary-key collision; the Bool reports whether
the row was committed. -/
def save_fingerprint_to_db (fault : Bool) (s : Store) (uid : Int)
    (t : List Char) : Store × Bool :=
  if fault then (s, false)
  else if s.any (fun r => r.1 == uid) then (s, false)
  else (s ++ [(uid, t)], true)

/-- SELECT * FROM fingerprints WHERE user_id = ?: the first matching row. -/
def fetchById (s : Store) (uid : Int) : Option (Int × List Char) :=
  s.find? (fun r => r.1 == uid)

/-! ## Codec lemmas -/

theorem sextetToChar_mem (n : Nat) : sextetToChar n ∈ b64Alphabet := by
  unfold sextetToChar
  rcases Nat.lt_or_ge n b64Alphabet.length with h | h
  · rw [List.getD_eq_getElem _ _ h]
    exact List.getElem_mem h
  · rw [List.getD_eq_default _ _ h]
    decide

theorem sextetToChar_ne_pad (n : Nat) : sextetToChar n ≠ '=' := by
  intro h
  have hmem := sextetToChar_mem n
  rw [h] at hmem
  revert hmem
  decide

theorem charToSextet_sextetToChar {n : Nat} (h : n < 64) :
    charToSextet (sextetToChar n) = some n := by
  have key : ∀ i : Fin 64, charToSextet (sextetToChar i.val) = some i.val := by decide
  exact key ⟨n, h⟩

theorem alphaOrPad_sextet (n : Nat) :
    (b64Alphabet.contains (sextetToChar n) || sextetToChar n == '=') = true := by
  simp only [List.contains, Bool.or_eq_true, List.elem_iff]
  exact Or.inl (sextetToChar_mem n)

theorem b64encode_chars :
    ∀ t : Bytes, ∀ c ∈ b64encode t, (b64Alphabet.contains c || c == '=') = true
  | a :: b :: c :: rest => by
      intro x hx
      simp only [b64encode, List.mem_cons] at hx
      rcases hx with h | h | h | h | h
      · subst h; exact alphaOrPad_sextet _
      · subst h; exact alphaOrPad_sextet _
      · subst h; exact alphaOrPad_sextet _
      · subst h; exact alphaOrPad_sextet _
      · exact b64encode_chars rest x h
  | [a, b] => by
      intro x hx
      simp only [b64encode, List.mem_cons, List.not_mem_nil, or_false] at hx
      rcases hx with h | h | h | h
      · subst h; exact alphaOrPad_sextet _
      · subst h; exact alphaOrPad_sextet _
      · subst h; exact alphaOrPad_sextet _
      · subst h; decide
  | [a] => by
      intro x hx
      simp only [b64encode, List.mem_cons, List.not_mem_nil, or_false] at hx
      rcases hx with h | h | h | h
      · subst h; exact alphaOrPad_sextet _
      · subst h; exact alphaOrPad_sextet _
      · subst h; decide
      · subst h; decide
  | [] => by
      intro x hx
      simp [b64encode] at hx

theorem b64encode_filter (t : Bytes) :
    (b64encode t).filter (fun c => b64Alphabet.contains c || c == '=') = b64encode t := by
  rw [List.filter_eq_self]
  exact b64encode_chars t

theorem b64decodeBody_encode :
    ∀ t : Bytes, (∀ x ∈ t, x < 256) → b64decodeBody (b64encode t) = some t
  | [] => fun _ => rfl
  | [a] => by
      intro h
      have ha : a < 256 := h a (by simp)
      have h1 : charToSextet (sextetToChar (a / 4)) = some (a / 4) :=
        charToSextet_sextetToChar (by omega)
      have h2 : charToSextet (sextetToChar (a % 4 * 16)) = some (a % 4 * 16) :=
        charToSextet_sextetToChar (by omega)
      simp only [b64encode, b64decodeBody]
      simp [h1, h2]
      omega
  | [a, b] => by
      intro h
      have ha : a < 256 := h a (by simp)
      have hb : b < 256 := h b (by simp)
      have h1 : charToSextet (sextetToChar (a / 4)) = some (a / 4) :=
        charToSextet_sextetToChar (by omega)
      have h2 : charToSextet (sextetToChar (a % 4 * 16 + b / 16))
          = some (a % 4 * 16 + b / 16) := charToSextet_sextetToChar (by omega)
      have h3 : charToSextet (sextetToChar (b % 16 * 4)) = some (b % 16 * 4) :=
        charToSextet_sextetToChar (by omega)
      simp only [b64encode, b64decodeBody]
      simp [h1, h2, h3, sextetToChar_ne_pad]
      omega
  | a :: b :: c :: rest => by
      intro h
      have ha : a < 256 := h a (by simp)
      have hb : b < 256 := h b (by simp)
      have hc : c < 256 := h c (by simp)
      have hrest : ∀ x ∈ rest, x < 256 := fun x hx => h x (by simp [hx])
      have hih := b64decodeBody_encode rest hrest
      have h1 : charToSextet (sextetToChar (a / 4)) = some (a / 4) :=
        charToSextet_sextetToChar (by omega)
      have h2 : charToSextet (sextetToChar (a % 4 * 16 + b / 16))
          = some (a % 4 * 16 + b / 16) := charToSextet_sextetToChar (by omega)
      have h3 : charToSextet (sextetToChar (b % 16 * 4 + c / 64))
          = some (b % 16 * 4 + c / 64) := charToSextet_sextetToChar (by omega)
      have h4 : charToSextet (sextetToChar (c % 64)) = some (c % 64) :=
        charToSextet_sextetToChar (by omega)
      simp only [b64encode, b64decodeBody]
      simp [h1, h2, h3, h4, hih, sextetToChar_ne_pad]
      omega

/-- C7: for every template byte sequence (entries below 256), decoding the
base64 encoding yields the sequence back; this is the codec pair used by
start_register to persist templates and by load_fingerprints_from_db to
reload them. -/
theorem codec_roundtrip (t : Bytes) (h : ∀ x ∈ t, x < 256) :
    b64decode (b64encode t) = some t := by
  unfold b64decode
  rw [b64encode_filter, b64decodeBody_encode t h]

/-- Witness for codec_roundtrip at the concrete template [0, 97, 255, 7]. -/
theorem codec_roundtrip_witness :
    (∀ x ∈ [0, 97, 255, 7], x < 256) ∧
      b64decode (b64encode [0, 97, 255, 7]) = some [0, 97, 255, 7] :=
  ⟨by decide, codec_roundtrip [0, 97, 255, 7] (by decide)⟩

/-! ## Allocator lemmas -/

theorem maxUserId_eq_none (s : Store) (h : maxUserId s = none) : s = [] := by
  cases s with
  | nil => rfl
  | cons hd tl =>
      obtain ⟨u, t⟩ := hd
      cases htl : maxUserId tl <;> simp [maxUserId, htl] at h

theorem maxUserId_isSome (s : Store) (h : s ≠ []) : ∃ m, maxUserId s = some m := by
  cases s with
  | nil => exact absurd rfl h
  | cons hd tl =>
      obtain ⟨u, t⟩ := hd
      cases htl : maxUserId tl with
      | none => exact ⟨u, by simp [maxUserId, htl]⟩
      | some m => exact ⟨max u m, by simp [maxUserId, htl]⟩

theorem maxUserId_le (s : Store) : ∀ m, maxUserId s = some m → ∀ r ∈ s, r.1 ≤ m := by
  induction s with
  | nil => intro m h r hr; simp at hr
  | cons hd tl ih =>
      intro m h r hr
      obtain ⟨u, t⟩ := hd
      cases htl : maxUserId tl with
      | none =>
          have : tl = [] := maxUserId_eq_none tl htl
          subst this
          simp only [maxUserId, htl, Option.some.injEq] at h
          subst h
          simp only [List.mem_singleton] at hr
          subst hr
          rfl
      | some m' =>
          simp only [maxUserId, htl, Option.some.injEq] at h
          subst h
          rcases List.mem_cons.mp hr with h | h
          · subst h; exact le_max_left u m'
          · exact le_trans (ih m' htl r h) (le_max_right u m')

theorem maxUserId_mem (s : Store) : ∀ m, maxUserId s = some m → m ∈ s.map Prod.fst := by
  induction s with
  | nil => intro m h; simp [maxUserId] at h
  | cons hd tl ih =>
      intro m h
      obtain ⟨u, t⟩ := hd
      cases htl : maxUserId tl with
      | none =>
          simp only [maxUserId, htl, Option.some.injEq] at h
          subst h
          simp
      | some m' =>
          simp only [maxUserId, htl, Option.some.injEq] at h
          subst h
          rcases max_choice u m' with h | h <;> rw [h]
          · simp
          · simp only [List.map_cons, List.mem_cons]
            exact Or.inr (ih m' htl)

theorem lt_get_next (s : Store) (m : Int) (h : maxUserId s = some m) :
    m < get_next_user_id s := by
  unfold get_next_user_id
  rw [h]
  by_cases hm : m = 0
  · subst hm; simp
  · simp only [hm, if_false]; omega

/-- C6: get_next_user_id returns 1 on the empty store and the maximal stored
user id plus one on a non-empty store; the maximum-0 case, which the Python
truthiness shortcut sends through the empty branch, still satisfies
0 + 1 = 1. -/
theorem next_user_id_is_max_plus_one (s : Store) :
    (s = [] → get_next_user_id s = 1) ∧
    (s ≠ [] → ∃ m, maxUserId s = some m ∧ (∀ r ∈ s, r.1 ≤ m) ∧
      m ∈ s.map Prod.fst ∧ get_next_user_id s = m + 1) := by
  constructor
  · intro h; subst h; rfl
  · intro h
    obtain ⟨m, hm⟩ := maxUserId_isSome s h
    refine ⟨m, hm, maxUserId_le s m hm, maxUserId_mem s m hm, ?_⟩
    unfold get_next_user_id
    rw [hm]
    by_cases h0 : m = 0
    · subst h0; norm_num
    · simp [h0]

/-- Witness for next_user_id_is_max_plus_one on the store holding user 2 and
on the empty store. -/
theorem next_user_id_is_max_plus_one_witness :
    get_next_user_id [((2 : Int), ['A'])] = 3 ∧ get_next_user_id ([] : Store) = 1 := by
  have h2 := (next_user_id_is_max_plus_one ([] : Store)).1 rfl
  obtain ⟨m, hm, _, _, hn⟩ :=
    (next_user_id_is_max_plus_one [((2 : Int), ['A'])]).2 (by simp)
  have hm2 : m = 2 := by
    have := hm
    simp only [maxUserId, Option.some.injEq] at this
    omega
  subst hm2
  refine ⟨by rw [hn]; norm_num, h2⟩

/-- C10 counterexample: for the store holding exactly one record with user_id
0, get_next_user_id does return 1, but 1 is exactly the specified
max + 1 = 0 + 1, so the claimed contrast with max + 1 is false at the claim's
own input. -/
theorem next_user_id_zero_max_cex :
    get_next_user_id [((0 : Int), [])] = 1 ∧
    maxUserId [((0 : Int), [])] = some 0 ∧
    get_next_user_id [((0 : Int), [])] = nextUserIdSpec [((0 : Int), [])] := by
  decide

/-- C10 amended: whenever the stored maximum user id is 0, the truthiness test
of get_next_user_id takes the empty-store branch and returns 1, which
coincides with the max-plus-one specification because 0 + 1 = 1. -/
theorem next_user_id_zero_max_amended (s : Store) (h : maxUserId s = some 0) :
    get_next_user_id s = 1 ∧ get_next_user_id s = nextUserIdSpec s := by
  unfold get_next_user_id nextUserIdSpec
  rw [h]
  norm_num

/-- Witness for next_user_id_zero_max_amended on a one-record store. -/
theorem next_user_id_zero_max_amended_witness :
    get_next_user_id [((0 : Int), ['B'])] = 1 ∧
    get_next_user_id [((0 : Int), ['B'])] = nextUserIdSpec [((0 : Int), ['B'])] :=
  next_user_id_zero_max_amended [((0 : Int), ['B'])] (by decide)

/-! ## Repeated commits and monotonic id allocation -/

/-- Repeated enrollment commits with no deletions: each step allocates
get_next_user_id and runs save_fingerprint_to_db without an injected fault,
as the registration flow does. -/
def commitSeq (s : Store) : List (List Char) → Store
  | [] => s
  | t :: ts => commitSeq (save_fingerprint_to_db false s (get_next_user_id s) t).1 ts

/-- User ids issued by the successive allocations along commitSeq. -/
def issuedIds (s : Store) : List (List Char) → List Int
  | [] => []
  | t :: ts =>
      get_next_user_id s ::
        issuedIds (save_fingerprint_to_db false s (get_next_user_id s) t).1 ts

theorem not_mem_next (s : Store) (r : Int × List Char) (hr : r ∈ s) :
    r.1 ≠ get_next_user_id s := by
  intro he
  have hne : s ≠ [] := by intro h; subst h; simp at hr
  obtain ⟨m, hm⟩ := maxUserId_isSome s hne
  have h1 := maxUserId_le s m hm r hr
  have h2 := lt_get_next s m hm
  omega

/-- An insert keyed by the freshly allocated id never hits the primary-key
collision branch and commits the appended row. -/
theorem save_next_eq (s : Store) (t : List Char) :
    save_fingerprint_to_db false s (get_next_user_id s) t
      = (s ++ [(get_next_user_id s, t)], true) := by
  have hany : s.any (fun r => r.1 == get_next_user_id s) = false := by
    rw [List.any_eq_false]
    intro r hr
    simp only [beq_iff_eq]
    exact not_mem_next s r hr
  simp [save_fingerprint_to_db, hany]

theorem maxUserId_append_single (s : Store) (u : Int) (t : List Char) :
    maxUserId (s ++ [(u, t)]) = some (match maxUserId s with
      | none => u
      | some m => max m u) := by
  induction s with
  | nil => simp [maxUserId]
  | cons hd tl ih =>
      obtain ⟨v, tv⟩ := hd
      cases htl : maxUserId tl with
      | none =>
          have : tl = [] := maxUserId_eq_none tl htl
          subst this
          simp [maxUserId]
      | some m =>
          simp only [List.cons_append, maxUserId, List.append_eq, ih, htl,
            Option.some.injEq]
          rw [max_assoc]

theorem get_next_commit_gt (s : Store) (t : List Char) :
    get_next_user_id s < get_next_user_id (s ++ [(get_next_user_id s, t)]) := by
  have hm : maxUserId (s ++ [(get_next_user_id s, t)]) = some (get_next_user_id s) := by
    rw [maxUserId_append_single]
    cases hs : maxUserId s with
    | none => rfl
    | some m =>
        have := lt_get_next s m hs
        simp [max_eq_right (le_of_lt this)]
  exact lt_get_next _ _ hm

theorem issuedIds_head (s : Store) (ts : List (List Char)) :
    (issuedIds s ts ++ [get_next_user_id (commitSeq s ts)]).head?
      = some (get_next_user_id s) := by
  cases ts <;> simp [issuedIds, commitSeq]

theorem issuedIds_chain (s : Store) (ts : List (List Char)) :
    List.Chain' (· < ·) (issuedIds s ts ++ [get_next_user_id (commitSeq s ts)]) := by
  induction ts generalizing s with
  | nil => simp [issuedIds, commitSeq]
  | cons t ts ih =>
      simp only [issuedIds, commitSeq, save_next_eq, List.cons_append]
      rw [List.chain'_cons']
      constructor
      · intro b hb
        rw [issuedIds_head] at hb
        simp only [Option.mem_def, Option.some.injEq] at hb
        subst hb
        exact get_next_commit_gt s t
      · exact ih (s ++ [(get_next_user_id s, t)])

/-- C8: along any sequence of successful commits with no deletions, the
successive values of get_next_user_id form a strictly increasing chain (the
issued ids followed by the final allocator reading), the issued ids are
pairwise distinct, and every insert in the sequence commits a row (the store
grows by exactly one row per commit). -/
theorem issued_ids_strictly_increase (s : Store) (ts : List (List Char)) :
    List.Chain' (· < ·) (issuedIds s ts ++ [get_next_user_id (commitSeq s ts)]) ∧
    List.Pairwise (· ≠ ·) (issuedIds s ts) ∧
    (commitSeq s ts).length = s.length + ts.length := by
  refine ⟨issuedIds_chain s ts, ?_, ?_⟩
  · have hch := issuedIds_chain s ts
    rw [List.chain'_iff_pairwise] at hch
    have hp := List.Pairwise.sublist (List.sublist_append_left _ _) hch
    exact hp.imp (fun h => ne_of_lt h)
  · induction ts generalizing s with
    | nil => simp [commitSeq]
    | cons t ts ih =>
        simp only [commitSeq, save_next_eq]
        rw [ih (s ++ [(get_next_user_id s, t)])]
        simp
        omega

/-! ## Capture workflows -/

/-- Environment supplying the vendor SDK behaviour: the successful
AcquireFingerprint results in order (unsuccessful polls only drive the sleep
loop and are omitted), the DBIdentify matcher, the DBMerge fusion and a
simulated store fault for the INSERT path. -/
structure CaptureEnv where
  samples : List (Bytes × Bytes)
  identify : Bytes → Int × Int
  merge : List Bytes → Option Bytes
  insertFault : Bool

/-- Observable calls made by the registration flow, in program order. -/
inductive Event
  | identifyEv (tmp : Bytes) (fid : Int)
  | mergeEv (ts : List Bytes)
  | dbAddEv (uid : Int) (tmp : Bytes)
  | insertEv (uid : Int) (enc : List Char) (ok : Bool)
  deriving DecidableEq

/-- Result of the triple-capture loop of start_register. -/
inductive CapResult
  | dup (fid : Int)
  | stuck
  | ok (templates : List Bytes)
  deriving DecidableEq

/-- Sample acquisition loop of start_register: up to n acquisitions, each
immediately checked with DBIdentify; a non-zero match returns at once with the
remaining samples unconsumed. stuck models the poll loop never being fed. -/
def captureLoop (idf : Bytes → Int × Int) :
    Nat → List (Bytes × Bytes) → List Bytes →
      CapResult × List (Bytes × Bytes) × List Event
  | 0, samples, acc => (.ok acc.reverse, samples, [])
  | _ + 1, [], _ => (.stuck, [], [])
  | n + 1, (tmp, _) :: rest, acc =>
      let fid := (idf tmp).1
      if fid = 0 then
        let r := captureLoop idf n rest (tmp :: acc)
        (r.1, r.2.1, Event.identifyEv tmp fid :: r.2.2)
      else
        (.dup fid, rest, [Event.identifyEv tmp fid])

/-- Terminal state of one start_register session. -/
inductive RegOutcome
  | registered (uid : Int)
  | duplicate (fid : Int)
  | mergeFailed
  | stuck
  deriving DecidableEq

/-- Final state of one start_register session: outcome, durable store,
volatile index, emitted events, and the samples left unconsumed. -/
structure RegResult where
  outcome : RegOutcome
  store : Store
  vindex : VIndex
  events : List Event
  leftover : List (Bytes × Bytes)
  deriving DecidableEq

/-- start_register of main.py: three identify-checked captures, DBMerge, and
on success the id allocation, base64 encoding, DBAdd to the volatile index and
save_fingerprint_to_db, in exactly that code order (the PNG export between
merge and DBAdd has no lifecycle effect and is omitted). -/
def start_register (env : CaptureEnv) (s : Store) (idx : VIndex) : RegResult :=
  match captureLoop env.identify 3 env.samples [] with
  | (.dup fid, rest, evs) => ⟨.duplicate fid, s, idx, evs, rest⟩
  | (.stuck, rest, evs) => ⟨.stuck, s, idx, evs, rest⟩
  | (.ok tmpls, rest, evs) =>
      match env.merge tmpls with
      | none => ⟨.mergeFailed, s, idx, evs ++ [Event.mergeEv tmpls], rest⟩
      | some regTemp =>
          let uid := get_next_user_id s
          let enc := b64encode regTemp
          let idx' := idx ++ [(uid, regTemp)]
          let res := save_fingerprint_to_db env.insertFault s uid enc
          ⟨.registered uid, res.1, idx',
           evs ++ [Event.mergeEv tmpls, Event.dbAddEv uid regTemp,
                   Event.insertEv uid enc res.2],
           rest⟩

/-- capture_fingerprints of main.py: three acquisitions with no identify
check, then DBMerge; the outer none models the poll loop never being fed,
the inner option is the merge result (None on fusion failure). -/
def capture_fingerprints (env : CaptureEnv) : Option (Option Bytes) :=
  if 3 ≤ env.samples.length then
    some (env.merge ((env.samples.take 3).map Prod.fst))
  else none

/-- Terminal state of one register_new_fingerprint session. -/
inductive RNFResult
  | stuck
  | crashed (e : PyErr) (store : Store) (vindex : VIndex)
  | done (uid : Int) (store : Store) (vindex : VIndex)
  deriving DecidableEq

/-- register_new_fingerprint of main.py: allocates the id, captures and
merges, then converts the merge result with bytes() BEFORE its None-guard, so
a failed merge raises TypeError there; on success DBAdd precedes the store
save. -/
def register_new_fingerprint (env : CaptureEnv) (s : Store) (idx : VIndex) :
    RNFResult :=
  let uid := get_next_user_id s
  match capture_fingerprints env with
  | none => .stuck
  | some none => .crashed .typeError s idx
  | some (some regTemp) =>
      let idx' := idx ++ [(uid, regTemp)]
      let res := save_fingerprint_to_db env.insertFault s uid (b64encode regTemp)
      .done uid res.1 idx'

/-- Terminal state of one start_identification attempt. -/
inductive IdOutcome
  | identified (fid score : Int)
  | healedFromDb (uid : Int)
  | notRecognized
  | crashed (e : PyErr)
  | stuck
  deriving DecidableEq

/-- start_identification of main.py: one acquisition, DBIdentify, and on a
zero match the database fallback keyed by get_next_user_id (the allocator
value itself, not the allocator value minus one); a row found there is decoded
and DBAdded, otherwise the attempt reports not recognized. -/
def start_identification (env : CaptureEnv) (s : Store) (idx : VIndex) :
    IdOutcome × VIndex :=
  match env.samples with
  | [] => (.stuck, idx)
  | (tmp, _) :: _ =>
      let fs := env.identify tmp
      if fs.1 ≠ 0 then (.identified fs.1 fs.2, idx)
      else
        let uid := get_next_user_id s
        match fetchById s uid with
        | none => (.notRecognized, idx)
        | some row =>
            match b64decode row.2 with
            | none => (.crashed .binasciiError, idx)
            | some t => (.healedFromDb uid, idx ++ [(uid, t)])

/-! ## Synchronization engine -/

/-- Observable device calls made at connect time, in program order. -/
inductive DevEvent
  | initEv
  | openEv
  | lightEv
  | clearEv
  | addEv (uid : Int) (tmp : Bytes)
  deriving DecidableEq

/-- load_fingerprints_from_db of main.py: decode each stored row and DBAdd it
to the volatile index; base64.b64decode runs with no exception handling, so
the first undecodable row raises (the error value) and the remaining rows are
not processed. -/
def load_fingerprints_from_db (s : Store) (idx : VIndex) :
    VIndex × List DevEvent × Option PyErr :=
  match s with
  | [] => (idx, [], none)
  | (uid, enc) :: rest =>
      match b64decode enc with
      | none => (idx, [], some PyErr.binasciiError)
      | some t =>
          let r := load_fingerprints_from_db rest (idx ++ [(uid, t)])
          (r.1, DevEvent.addEv uid t :: r.2.1, r.2.2)

/-- initialize_zkfp2 of main.py: on success the SDK is initialized, the device
opened, the light set and DBClear empties the volatile index; any SDK failure
is caught and reported as False with the index untouched (modelled as failing
before the clear). -/
def initialize_zkfp2 (deviceFault : Bool) (idx : VIndex) :
    Bool × VIndex × List DevEvent :=
  if deviceFault then (false, idx, [])
  else (true, [], [DevEvent.initEv, DevEvent.openEv, DevEvent.lightEv,
                   DevEvent.clearEv])

/-- connect_to_device of main.py: initialize (which ends in DBClear), then on
success set up the schema and run the bulk load into the just-cleared index. -/
def connect_to_device (deviceFault : Bool) (s : Store) (idx : VIndex) :
    Bool × VIndex × List DevEvent × Option PyErr :=
  let ini := initialize_zkfp2 deviceFault idx
  if ini.1 then
    let loaded := load_fingerprints_from_db s ini.2.1
    (true, loaded.1, ini.2.2 ++ loaded.2.1, loaded.2.2)
  else (false, idx, ini.2.2, none)

/-! ## Registration lemmas -/

theorem captureLoop_events (idf : Bytes → Int × Int) :
    ∀ (n : Nat) (samples : List (Bytes × Bytes)) (acc : List Bytes),
      ∀ e ∈ (captureLoop idf n samples acc).2.2, ∃ t f, e = Event.identifyEv t f := by
  intro n
  induction n with
  | zero => intro samples acc e he; simp [captureLoop] at he
  | succ n ih =>
      intro samples acc e he
      cases samples with
      | nil => simp [captureLoop] at he
      | cons hd rest =>
          obtain ⟨tmp, img⟩ := hd
          by_cases h0 : (idf tmp).1 = 0
          · simp only [captureLoop, h0, if_pos, List.mem_cons] at he
            rcases he with h | h
            · exact ⟨tmp, 0, by simpa [h0] using h⟩
            · exact ih rest (tmp :: acc) e h
          · simp only [captureLoop, h0, if_neg, List.mem_cons, List.not_mem_nil,
              or_false, if_false] at he
            exact ⟨tmp, (idf tmp).1, he⟩

theorem captureLoop_dup (idf : Bytes → Int × Int) :
    ∀ (j n : Nat) (samples : List (Bytes × Bytes)) (acc : List Bytes)
      (sj : Bytes × Bytes), j < n → samples[j]? = some sj →
      (idf sj.1).1 ≠ 0 →
      (∀ i si, i < j → samples[i]? = some si → (idf si.1).1 = 0) →
      (captureLoop idf n samples acc).1 = CapResult.dup (idf sj.1).1 ∧
      (captureLoop idf n samples acc).2.1 = samples.drop (j + 1) := by
  intro j
  induction j with
  | zero =>
      intro n samples acc sj hjn hget hdup hprev
      cases samples with
      | nil => simp at hget
      | cons hd rest =>
          have hhd : hd = sj := by simpa using hget
          subst hhd
          obtain ⟨n', rfl⟩ : ∃ n', n = n' + 1 := ⟨n - 1, by omega⟩
          obtain ⟨tmp, img⟩ := hd
          simp [captureLoop, hdup]
  | succ j ih =>
      intro n samples acc sj hjn hget hdup hprev
      cases samples with
      | nil => simp at hget
      | cons hd rest =>
          obtain ⟨n', rfl⟩ : ∃ n', n = n' + 1 := ⟨n - 1, by omega⟩
          obtain ⟨tmp, img⟩ := hd
          have h0 : (idf tmp).1 = 0 := hprev 0 (tmp, img) (by omega) (by simp)
          have hrest := ih n' rest (tmp :: acc) sj (by omega) (by simpa using hget)
            hdup (fun i si hi hsi => hprev (i + 1) si (by omega) (by simpa using hsi))
          simp [captureLoop, h0, hrest.1, hrest.2]

/-- C4: during registration, if one of the up-to-three acquired samples is
identified with a non-zero id (all earlier samples having matched zero), the
session aborts as a duplicate at once: only identify calls appear among the
emitted events (so DBMerge and the insert are never reached), the store and
the volatile index are untouched, and no sample beyond the offending one is
consumed. -/
theorem register_duplicate_aborts (env : CaptureEnv) (s : Store) (idx : VIndex)
    (j : Nat) (sj : Bytes × Bytes) (hj : j < 3)
    (hget : env.samples[j]? = some sj)
    (hdup : (env.identify sj.1).1 ≠ 0)
    (hprev : ∀ i si, i < j → env.samples[i]? = some si →
      (env.identify si.1).1 = 0) :
    (start_register env s idx).outcome = RegOutcome.duplicate (env.identify sj.1).1 ∧
    (∀ e ∈ (start_register env s idx).events, ∃ t f, e = Event.identifyEv t f) ∧
    (start_register env s idx).store = s ∧
    (start_register env s idx).vindex = idx ∧
    (start_register env s idx).leftover = env.samples.drop (j + 1) := by
  have hd := captureLoop_dup env.identify j 3 env.samples [] sj hj hget hdup hprev
  have hev := captureLoop_events env.identify 3 env.samples []
  rcases hcl : captureLoop env.identify 3 env.samples [] with ⟨res, rem, evs⟩
  rw [hcl] at hd hev
  simp only at hd hev
  obtain ⟨hres, hrem⟩ := hd
  subst hres
  subst hrem
  simp only [start_register, hcl]
  simp only [eq_self_iff_true, true_and, and_true]
  exact hev

/-- Concrete duplicate-abort session: the second sample matches user 7. -/
def dupEnv : CaptureEnv :=
  { samples := [([1], []), ([2], []), ([3], [])]
    identify := fun t => if t = [2] then (7, 90) else (0, 0)
    merge := fun _ => some [5]
    insertFault := false }

/-- Witness for register_duplicate_aborts: in dupEnv the second sample is a
duplicate of user 7 and the session aborts with the third sample unread. -/
theorem register_duplicate_aborts_witness :
    (start_register dupEnv [] []).outcome = RegOutcome.duplicate 7 ∧
    (∀ e ∈ (start_register dupEnv [] []).events, ∃ t f, e = Event.identifyEv t f) ∧
    (start_register dupEnv [] []).store = [] ∧
    (start_register dupEnv [] []).vindex = [] ∧
    (start_register dupEnv [] []).leftover = [([3], [])] := by
  have h := register_duplicate_aborts dupEnv [] [] 1 ([2], []) (by omega)
    (by decide) (by decide)
    (by
      intro i si hi hsi
      have hi0 : i = 0 := by omega
      subst hi0
      have hsi' : ([1], []) = si := by simpa [dupEnv] using hsi
      subst hsi'
      decide)
  exact ⟨h.1, h.2.1, h.2.2.1, h.2.2.2.1, h.2.2.2.2⟩

/-- C1 amended: in every registration session that reaches a successful merge,
the DBAdd of the merged template into the volatile index is issued strictly
before the store insert is attempted (the event list puts dbAddEv immediately
before insertEv), and the volatile index receives the template regardless of
whether the insert succeeds. -/
theorem register_dbadd_precedes_insert (env : CaptureEnv) (s : Store)
    (idx : VIndex) (tmpls : List Bytes) (rem : List (Bytes × Bytes))
    (evs : List Event)
    (hcl : captureLoop env.identify 3 env.samples [] = (CapResult.ok tmpls, rem, evs))
    (M : Bytes) (hm : env.merge tmpls = some M) :
    ∃ ok, (start_register env s idx).events
        = evs ++ [Event.mergeEv tmpls, Event.dbAddEv (get_next_user_id s) M,
                  Event.insertEv (get_next_user_id s) (b64encode M) ok] ∧
      (get_next_user_id s, M) ∈ (start_register env s idx).vindex := by
  refine ⟨(save_fingerprint_to_db env.insertFault s (get_next_user_id s)
    (b64encode M)).2, ?_, ?_⟩
  · simp [start_register, hcl, hm]
  · simp [start_register, hcl, hm]

/-- Clean registration session with no store fault. -/
def okEnv : CaptureEnv :=
  { samples := [([1], []), ([2], []), ([3], [])]
    identify := fun _ => (0, 0)
    merge := fun _ => some [5]
    insertFault := false }

/-- Witness for register_dbadd_precedes_insert on okEnv over the empty
store. -/
theorem register_dbadd_precedes_insert_witness :
    ∃ ok, (start_register okEnv [] []).events
        = [Event.identifyEv [1] 0, Event.identifyEv [2] 0, Event.identifyEv [3] 0]
          ++ [Event.mergeEv [[1], [2], [3]],
              Event.dbAddEv (get_next_user_id []) [5],
              Event.insertEv (get_next_user_id []) (b64encode [5]) ok] ∧
      (get_next_user_id [], [5]) ∈ (start_register okEnv [] []).vindex :=
  register_dbadd_precedes_insert okEnv [] []
    [[1], [2], [3]] []
    [Event.identifyEv [1] 0, Event.identifyEv [2] 0, Event.identifyEv [3] 0]
    (by decide) [5] rfl

/-- Registration session with all three samples fresh but a faulty store. -/
def cexEnv : CaptureEnv :=
  { samples := [([1], [0]), ([2], [0]), ([3], [0])]
    identify := fun _ => (0, 0)
    merge := fun _ => some [5]
    insertFault := true }

/-- C1 counterexample: under a simulated store fault the insert fails (the
store stays empty), yet the volatile index still receives the merged template,
and in the event order DBAdd precedes the failed insert; both halves of the
claimed insert-first commit ordering are false on this session. -/
theorem register_insert_failure_still_indexes_cex :
    (start_register cexEnv [] []).vindex = [(1, [5])] ∧
    (start_register cexEnv [] []).store = [] ∧
    (start_register cexEnv [] []).events
      = [Event.identifyEv [1] 0, Event.identifyEv [2] 0, Event.identifyEv [3] 0,
         Event.mergeEv [[1], [2], [3]], Event.dbAddEv 1 [5],
         Event.insertEv 1 (b64encode [5]) false] := by
  decide

/-- C5: when DBMerge fails inside register_new_fingerprint, the session does
not end in a clean local abort: the bytes(None) conversion raises TypeError
before the None-guard of the code is reached, so the exception escapes the
session (no row is persisted and no index addition happens, but the failure
is an uncaught crash rather than the documented abort). -/
theorem register_new_fingerprint_merge_failure_crash (env : CaptureEnv)
    (s : Store) (idx : VIndex) (hlen : 3 ≤ env.samples.length)
    (hm : env.merge ((env.samples.take 3).map Prod.fst) = none) :
    register_new_fingerprint env s idx = RNFResult.crashed PyErr.typeError s idx := by
  unfold register_new_fingerprint capture_fingerprints
  rw [if_pos hlen, hm]

/-- Session whose merge always fails. -/
def mergeFailEnv : CaptureEnv :=
  { samples := [([1], []), ([2], []), ([3], [])]
    identify := fun _ => (0, 0)
    merge := fun _ => none
    insertFault := false }

/-- Witness for register_new_fingerprint_merge_failure_crash on
mergeFailEnv. -/
theorem register_new_fingerprint_merge_failure_crash_witness :
    register_new_fingerprint mergeFailEnv [] []
      = RNFResult.crashed PyErr.typeError [] [] :=
  register_new_fingerprint_merge_failure_crash mergeFailEnv [] [] (by decide) rfl

/-- start_register, by contrast, handles a failed merge locally: the session
ends as mergeFailed with the store and the volatile index untouched. -/
theorem start_register_merge_failed (env : CaptureEnv) (s : Store)
    (idx : VIndex) (tmpls : List Bytes) (rem : List (Bytes × Bytes))
    (evs : List Event)
    (hcl : captureLoop env.identify 3 env.samples [] = (CapResult.ok tmpls, rem, evs))
    (hm : env.merge tmpls = none) :
    (start_register env s idx).outcome = RegOutcome.mergeFailed ∧
    (start_register env s idx).store = s ∧
    (start_register env s idx).vindex = idx := by
  simp [start_register, hcl, hm]

/-! ## Identification lemmas -/

/-- The database fallback of start_identification can never fire: the row it
looks up is keyed by the freshly allocated id, which exceeds every stored
id. -/
theorem fetchById_next_none (s : Store) :
    fetchById s (get_next_user_id s) = none := by
  unfold fetchById
  rw [List.find?_eq_none]
  intro r hr
  simp only [beq_iff_eq]
  exact not_mem_next s r hr

/-- Identification attempt whose sample matches nothing in the volatile
index. -/
def idEnv : CaptureEnv :=
  { samples := [([9], [])]
    identify := fun _ => (0, 0)
    merge := fun _ => none
    insertFault := false }

/-- Store of the gap-heal scenario: only record 2 is present. -/
def storeB : Store := [(2, b64encode [1, 2, 3])]

/-- C2: the gap-heal scenario evaluated on the code. With the store holding
only record 2, an empty volatile index and a zero identify result, the
fallback looks up get_next_user_id = 3 (not 3 - 1 = 2), finds no row, and
reports not recognized; record 2 exists but is never healed into the index. -/
theorem identification_gap_heal_misses_store :
    start_identification idEnv storeB [] = (IdOutcome.notRecognized, []) ∧
    get_next_user_id storeB = 3 ∧
    fetchById storeB 2 = some (2, b64encode [1, 2, 3]) := by
  decide

/-! ## Bulk load lemmas -/

/-- C3 counterexample: a two-record store whose first record is undecodable;
the load raises (the binascii error) instead of skipping, and the second,
valid record is never added to the volatile index. -/
theorem bulk_load_corrupt_record_aborts_cex :
    (load_fingerprints_from_db [(1, ['a']), (2, b64encode [7])] []).2.2
        = some PyErr.binasciiError ∧
    (load_fingerprints_from_db [(1, ['a']), (2, b64encode [7])] []).1 = [] := by
  decide

/-- C3 amended: the bulk load adds the decoded templates of exactly the
records preceding the first corrupt one, then the decode error aborts the
load; every later record, valid or not, is left out of the volatile index. -/
theorem bulk_load_stops_at_corrupt (pre post : Store) (uid : Int)
    (enc : List Char) (idx : VIndex)
    (hpre : ∀ r ∈ pre, (b64decode r.2).isSome)
    (hbad : b64decode enc = none) :
    load_fingerprints_from_db (pre ++ (uid, enc) :: post) idx
      = (idx ++ pre.filterMap (fun r => (b64decode r.2).map (fun t => (r.1, t))),
         (pre.filterMap (fun r => (b64decode r.2).map (fun t => (r.1, t)))).map
           (fun e => DevEvent.addEv e.1 e.2),
         some PyErr.binasciiError) := by
  induction pre generalizing idx with
  | nil => simp [load_fingerprints_from_db, hbad]
  | cons hd rest ih =>
      obtain ⟨u, e⟩ := hd
      obtain ⟨t, ht⟩ : ∃ t, b64decode e = some t := by
        have := hpre (u, e) (by simp)
        exact Option.isSome_iff_exists.mp this
      have hpre' : ∀ r ∈ rest, (b64decode r.2).isSome :=
        fun r hr => hpre r (by simp [hr])
      have hih := ih (idx ++ [(u, t)]) hpre'
      simp [load_fingerprints_from_db, ht, hih, List.filterMap_cons,
        List.append_assoc]

/-- Witness for bulk_load_stops_at_corrupt: one valid record before the
corrupt one, one valid record after it. -/
theorem bulk_load_stops_at_corrupt_witness :
    load_fingerprints_from_db
        [(5, b64encode [7]), (6, ['a']), (7, b64encode [9])] []
      = ([(5, [7])], [DevEvent.addEv 5 [7]], some PyErr.binasciiError) := by
  have h := bulk_load_stops_at_corrupt [(5, b64encode [7])] [(7, b64encode [9])]
    6 ['a'] [] (by decide) (by decide)
  have hl : [((5 : Int), b64encode [7])]
        ++ ((6 : Int), ['a']) :: [((7 : Int), b64encode [9])]
      = [(5, b64encode [7]), (6, ['a']), (7, b64encode [9])] := rfl
  rw [hl] at h
  exact h.trans (by decide)

/-! ## Connect-time synchronization -/

theorem load_mem (s : Store) : ∀ (idx : VIndex) (e : Int × Bytes),
    e ∈ (load_fingerprints_from_db s idx).1 →
    e ∈ idx ∨ ∃ enc, (e.1, enc) ∈ s ∧ b64decode enc = some e.2 := by
  induction s with
  | nil =>
      intro idx e he
      exact Or.inl (by simpa [load_fingerprints_from_db] using he)
  | cons hd rest ih =>
      intro idx e he
      obtain ⟨uid, enc⟩ := hd
      cases hdec : b64decode enc with
      | none =>
          simp only [load_fingerprints_from_db, hdec] at he
          exact Or.inl he
      | some t =>
          simp only [load_fingerprints_from_db, hdec] at he
          rcases ih (idx ++ [(uid, t)]) e he with h | ⟨enc', h1, h2⟩
          · rcases List.mem_append.mp h with h' | h'
            · exact Or.inl h'
            · simp only [List.mem_singleton] at h'
              subst h'
              exact Or.inr ⟨enc, by simp, hdec⟩
          · exact Or.inr ⟨enc', by simp [h1], h2⟩

theorem load_events_addEv (s : Store) : ∀ (idx : VIndex),
    ∀ ev ∈ (load_fingerprints_from_db s idx).2.1, ∃ u t, ev = DevEvent.addEv u t := by
  induction s with
  | nil => intro idx ev hev; simp [load_fingerprints_from_db] at hev
  | cons hd rest ih =>
      intro idx ev hev
      obtain ⟨uid, enc⟩ := hd
      cases hdec : b64decode enc with
      | none => simp [load_fingerprints_from_db, hdec] at hev
      | some t =>
          simp only [load_fingerprints_from_db, hdec, List.mem_cons] at hev
          rcases hev with h | h
          · exact ⟨uid, t, h⟩
          · exact ih (idx ++ [(uid, t)]) ev h

/-- C9: a successful connection runs DBClear before any DBAdd (the event list
opens with the init/open/light/clear sequence and continues only with adds),
and the volatile index immediately after connect does not depend on its
pre-connection contents and holds only entries decoded from the durable
store's rows. -/
theorem connect_clears_then_loads (s : Store) (idx idx' : VIndex) :
    (connect_to_device false s idx).1 = true ∧
    (connect_to_device false s idx).2.1 = (connect_to_device false s idx').2.1 ∧
    (∀ e ∈ (connect_to_device false s idx).2.1,
        ∃ enc, (e.1, enc) ∈ s ∧ b64decode enc = some e.2) ∧
    (∃ adds, (connect_to_device false s idx).2.2.1
        = [DevEvent.initEv, DevEvent.openEv, DevEvent.lightEv, DevEvent.clearEv]
            ++ adds ∧
      ∀ ev ∈ adds, ∃ u t, ev = DevEvent.addEv u t) := by
  have hconn : ∀ i : VIndex, connect_to_device false s i
      = (true, (load_fingerprints_from_db s []).1,
         [DevEvent.initEv, DevEvent.openEv, DevEvent.lightEv, DevEvent.clearEv]
           ++ (load_fingerprints_from_db s []).2.1,
         (load_fingerprints_from_db s []).2.2) := by
    intro i
    simp [connect_to_device, initialize_zkfp2]
  refine ⟨by rw [hconn], by rw [hconn, hconn], ?_, ?_⟩
  · intro e he
    rw [hconn] at he
    simp only at he
    rcases load_mem s [] e he with h | h
    · simp at h
    · exact h
  · exact ⟨(load_fingerprints_from_db s []).2.1, by rw [hconn],
      load_events_addEv s []⟩

/-- Witness for connect_clears_then_loads: connecting over a stale index
yields exactly the store-derived entry. -/
theorem connect_clears_then_loads_witness :
    ∃ enc, ((2 : Int), enc) ∈ [((2 : Int), b64encode [7])]
      ∧ b64decode enc = some [7] := by
  have h := connect_clears_then_loads [((2 : Int), b64encode [7])] [(9, [1])] []
  exact h.2.2.1 (2, [7]) (by decide)

end ZKFingerprint
